import Mathlib

/-!
Verification of the rda-python-dsquasar batching and cataloguing code.

The definitions below are a shallow embedding of the Python sources
`tacctar.py` and `taccrec.py`.  Filesystem and database interactions are
made explicit: a file carries the size reported by `os.path.getsize`
(`none` models a stat failure), database tables are association lists,
and side effects of the archive builder are reified as a trace of
operations.
-/

/-- A file on disk as seen by the collector: its path and the size that
`os.path.getsize` reports, `none` when the stat call raises. -/
structure FileD where
  path : String
  statSize : Option Nat
deriving DecidableEq, Repr

/-- `get_file_size` of `tacctar.py` (lines 32-37): return the stat size,
or log a warning and return 0 when the stat call raises. -/
def get_file_size (f : FileD) : Nat :=
  f.statSize.getD 0

/-- `get_batch_size` of `tacctar.py` (lines 227-228): the sum of the
member file sizes of a batch. -/
def get_batch_size (batch : List FileD) : Nat :=
  (batch.map get_file_size).sum

/-- `batches[-1].extend(current_batch)`: append `cur` to the last batch of
the list.  The Python statement is only reached when the list is
non-empty; on the empty list this function returns `[cur]`. -/
def extendLast {α : Type} : List (List α) → List α → List (List α)
  | [], cur => [cur]
  | [b], cur => [b ++ cur]
  | b :: b2 :: bs, cur => b :: extendLast (b2 :: bs) cur

/-- The loop of `group_files_by_size` (`tacctar.py` lines 44-70), with the
state `batches`, `current_batch`, `current_size` passed explicitly.  The
first match arm is the code after the loop (lines 65-69). -/
def group_files_by_size_loop (min_size max_size : Nat) :
    List FileD → List (List FileD) → List FileD → Nat → List (List FileD)
  | [], batches, current_batch, current_size =>
    if current_batch = [] then batches
    else if current_size < min_size ∧ batches ≠ [] then extendLast batches current_batch
    else batches ++ [current_batch]
  | f :: fs, batches, current_batch, current_size =>
    if 2 * max_size < get_file_size f then
      group_files_by_size_loop min_size max_size fs batches current_batch current_size
    else if max_size < current_size + get_file_size f then
      if current_size < min_size ∧ batches ≠ [] then
        group_files_by_size_loop min_size max_size fs
          (extendLast batches current_batch) [f] (get_file_size f)
      else
        group_files_by_size_loop min_size max_size fs
          (batches ++ [current_batch]) [f] (get_file_size f)
    else
      group_files_by_size_loop min_size max_size fs batches
        (current_batch ++ [f]) (current_size + get_file_size f)

/-- `group_files_by_size` of `tacctar.py` (lines 39-70). -/
def group_files_by_size (files : List FileD) (min_size max_size : Nat) :
    List (List FileD) :=
  group_files_by_size_loop min_size max_size files [] [] 0

/-- `ONE_TB` of `tacctar.py` (line 8). -/
def ONE_TB : Nat := 1099511627776

/-- `THREE_TB` of `tacctar.py` (line 9). -/
def THREE_TB : Nat := 3298534883328

/-- The loop of the batcher exactly as the specification words it in
section 4.2: files larger than `max_size` are excluded (rule 1); on
overflow the current batch is always closed as its own batch, whether or
not it reached `min_size` (rules 2a and 2b, the forced close); the
trailing undersized batch is merged backward (rule 4).  This definition
follows the specification text, for comparison with
`group_files_by_size`, which follows the source. -/
def group_files_by_size_spec_loop (min_size max_size : Nat) :
    List FileD → List (List FileD) → List FileD → Nat → List (List FileD)
  | [], batches, current_batch, current_size =>
    if current_batch = [] then batches
    else if current_size < min_size ∧ batches ≠ [] then extendLast batches current_batch
    else batches ++ [current_batch]
  | f :: fs, batches, current_batch, current_size =>
    if max_size < get_file_size f then
      group_files_by_size_spec_loop min_size max_size fs batches current_batch current_size
    else if max_size < current_size + get_file_size f then
      group_files_by_size_spec_loop min_size max_size fs
        (batches ++ [current_batch]) [f] (get_file_size f)
    else
      group_files_by_size_spec_loop min_size max_size fs batches
        (current_batch ++ [f]) (current_size + get_file_size f)

/-- The batcher as the specification describes it (section 4.2), wrapping
`group_files_by_size_spec_loop`. -/
def group_files_by_size_spec (files : List FileD) (min_size max_size : Nat) :
    List (List FileD) :=
  group_files_by_size_spec_loop min_size max_size files [] [] 0

/-- Python `str.strip()`: drop leading and trailing whitespace. -/
def pyStrip (s : String) : String :=
  String.mk (((s.data.dropWhile Char.isWhitespace).reverse.dropWhile
    Char.isWhitespace).reverse)

/-- The whitespace-run tokenizer behind Python `str.split()`; `cur` holds
the current token reversed. -/
def wsTokens : List Char → List Char → List (List Char)
  | [], cur => if cur = [] then [] else [cur.reverse]
  | c :: cs, cur =>
    if c.isWhitespace then
      if cur = [] then wsTokens cs [] else cur.reverse :: wsTokens cs []
    else wsTokens cs (c :: cur)

/-- Python `str.split()` with no argument: split on runs of whitespace and
drop empty pieces. -/
def pySplitWs (s : String) : List String :=
  (wsTokens s.data []).map String.mk

/-- Python `sep.join(xs)`. -/
def pyIntercalate (sep : String) : List String → String
  | [] => ""
  | [x] => x
  | x :: y :: t => x ++ sep ++ pyIntercalate sep (y :: t)

/-- Split a character list at the first slash: `some (before, after)`,
or `none` when there is no slash. -/
def splitFirstSlash : List Char → Option (List Char × List Char)
  | [] => none
  | c :: cs =>
    if c = '/' then some ([], cs)
    else
      match splitFirstSlash cs with
      | none => none
      | some (a, b) => some (c :: a, b)

/-- Whether a string's last character is `/` (Python `endswith('/')`). -/
def endsWithSlash (s : String) : Bool :=
  match s.data.getLast? with
  | some c => c = '/'
  | none => false

/-- Python `int(s)` restricted to the non-negative decimal strings the
member lists carry; any other input raises (`none`). -/
def pyToNat (s : String) : Option Nat :=
  if s.data = [] then none else digitsToNat s.data 0
where
  digitsToNat : List Char → Nat → Option Nat
    | [], acc => some acc
    | c :: cs, acc =>
      if c.isDigit then digitsToNat cs (acc * 10 + (c.toNat - 48)) else none

/-- Python `s.replace(pat, repl)` (all occurrences, left to right), with
a fuel argument making the recursion structural; the fuel
`s.length` is always sufficient because every step consumes at least one
character (the sources never call `replace` with an empty pattern). -/
def pyReplaceFuel (pat repl : List Char) : Nat → List Char → List Char
  | 0, cs => cs
  | _ + 1, [] => []
  | fuel + 1, c :: cs =>
    if pat ≠ [] ∧ pat.isPrefixOf (c :: cs) then
      repl ++ pyReplaceFuel pat repl fuel ((c :: cs).drop pat.length)
    else c :: pyReplaceFuel pat repl fuel cs

/-- Python `s.replace(pat, repl)`. -/
def pyReplace (s pat repl : String) : String :=
  String.mk (pyReplaceFuel pat.data repl.data s.data.length s.data)

/-- Python `os.path.basename` for slash-separated paths: the text after
the last slash. -/
def pyBasenameChars : List Char → List Char → List Char
  | [], cur => cur.reverse
  | c :: cs, cur =>
    if c = '/' then pyBasenameChars cs [] else pyBasenameChars cs (c :: cur)

/-- Python `os.path.basename`. -/
def pyBasename (s : String) : String :=
  String.mk (pyBasenameChars s.data [])

/-- Python `s.split(sep)` for a one-character separator (keeps empty
pieces). -/
def splitCharAux (sep : Char) : List Char → List Char → List (List Char)
  | [], cur => [cur.reverse]
  | c :: cs, cur =>
    if c = sep then cur.reverse :: splitCharAux sep cs []
    else splitCharAux sep cs (c :: cur)

/-- Python `s.split(sep)` for a one-character separator. -/
def pySplitChar (s : String) (sep : Char) : List String :=
  (splitCharAux sep s.data []).map String.mk

/-- Adding an element to a Python `set`, modelled as a duplicate-free
list: keep the list unchanged if the element is present. -/
def addRoot (rs : List String) (r : String) : List String :=
  if r ∈ rs then rs else rs ++ [r]

/-- One insertion step of Python `sorted` on strings. -/
def insertSorted (x : String) : List String → List String
  | [] => [x]
  | y :: t => if x ≤ y then x :: y :: t else y :: insertSorted x t

/-- Python `sorted` on a list of strings (insertion sort; code-point
order, as Python compares `str`). -/
def pySorted (l : List String) : List String :=
  l.foldr insertSorted []

/-- The accumulator of the member-list reading loop of
`get_tar_summary_and_details` (`taccrec.py` lines 10-46). -/
structure MbrAcc where
  tar_size : Nat
  file_count : Nat
  root_dirs : List String
  dsid : Option String
  member_names : List String
deriving DecidableEq, Repr

/-- The loop of `get_tar_summary_and_details` (`taccrec.py` lines 18-46):
read the member list lines, keeping a line when it starts with `-rw`,
splits into at least 6 whitespace-separated parts, and its member name
does not end in `/`.  `idx` is the line index in the file (`enumerate`).
A size field `int(parts[2])` that does not parse raises `ValueError` in
Python; that is modelled as `none`.  The `details` strings and `mtime`
computed by the source (lines 35-39 and 45) are dead code — never read
after being built — and are omitted. -/
def mbr_scan : List String → Nat → MbrAcc → Option MbrAcc
  | [], _, acc => some acc
  | l :: rest, idx, acc =>
    if "-rw".data.isPrefixOf (pyStrip l).data then
      if (pySplitWs (pyStrip l)).length < 6 then mbr_scan rest (idx + 1) acc
      else
        match pyToNat ((pySplitWs (pyStrip l)).getD 2 "") with
        | none => none
        | some size =>
          if endsWithSlash (pyIntercalate " " ((pySplitWs (pyStrip l)).drop 5)) then
            mbr_scan rest (idx + 1) acc
          else
            mbr_scan rest (idx + 1)
              { tar_size := acc.tar_size + size
                file_count := acc.file_count + 1
                root_dirs := addRoot acc.root_dirs
                  (mbrRoot (pyIntercalate " " ((pySplitWs (pyStrip l)).drop 5)))
                dsid := if idx = 0 then
                    some (mbrRoot (pyIntercalate " " ((pySplitWs (pyStrip l)).drop 5)))
                  else acc.dsid
                member_names := acc.member_names
                  ++ [pyIntercalate " " ((pySplitWs (pyStrip l)).drop 5)] }
    else mbr_scan rest (idx + 1) acc
where
  /-- `name.split('/')[0] if '/' in name else name` (`taccrec.py` line 41). -/
  mbrRoot (name : String) : String :=
    match splitFirstSlash name.data with
    | some (a, _) => String.mk a
    | none => name

/-- The summary dictionary returned by `get_tar_summary_and_details`
(`taccrec.py` lines 58-69).  Dates and times are opaque strings. -/
structure Summary where
  tfile : String
  data_size : Nat
  wcount : Nat
  date_created : String
  time_created : String
  date_modified : String
  time_modified : String
  note : String
  dsids : String
  dsid : Option String
deriving DecidableEq, Repr

/-- The body of `get_tar_summary_and_details` of `taccrec.py` (lines
9-69) on the lines of an existing member-list file.
`now_date`/`now_time` stand for `datetime.now()`.  Returns the summary
and `member_details` (the list of member names, the source's list of
`{'name': name}` dicts). -/
def get_tar_summary_core (ls : List String) (member_list_path : String)
    (now_date now_time : String) : Option (Summary × List String) :=
  match mbr_scan ls 0 ⟨0, 0, [], none, []⟩ with
  | none => none
  | some acc =>
    some ({ tfile := pyReplace (pyBasename member_list_path) ".mbr" ""
            data_size := acc.tar_size
            wcount := acc.file_count
            date_created := now_date
            time_created := now_time
            date_modified := now_date
            time_modified := now_time
            note := pyIntercalate "\n" acc.member_names
            dsids := pyIntercalate "," (pySorted acc.root_dirs)
            dsid := acc.dsid }, acc.member_names)

/-- The outer shell of `get_tar_summary_and_details`: a missing or
invalid member-list file prints an error and returns `None, None`. -/
def get_tar_summary_and_details (mbr_lines : Option (List String))
    (member_list_path : String) (now_date now_time : String) :
    Option (Summary × List String) :=
  match mbr_lines with
  | none => none
  | some ls => get_tar_summary_core ls member_list_path now_date now_time

/-- The `extra` dictionary handed to `insert_tfile_row` (`taccrec.py`
lines 189-196). -/
structure Extra where
  uid : Nat
  dsid : Option String
  data_format : String
  disp_order : Nat
  dsids : String
  note : String
deriving DecidableEq, Repr

/-- `extra` as `main` of `taccrec.py` builds it (lines 189-196). -/
def mainExtra (s : Summary) (uid : Nat) : Extra :=
  { uid := uid
    dsid := s.dsid
    data_format := ""
    disp_order := 0
    dsids := s.dsids
    note := s.note }

/-- The non-key column values bound in the `INSERT` of `insert_tfile_row`
(`taccrec.py` lines 75-87): every column of the `columns` list except the
key `tfile`. -/
structure Cols where
  data_size : Nat
  wcount : Nat
  date_created : String
  time_created : String
  date_modified : String
  time_modified : String
  file_format : String
  status : String
  uid : Nat
  dsid : Option String
  data_format : String
  disp_order : Nat
  dsids : String
  note : String
deriving DecidableEq, Repr

/-- The `values` list of `insert_tfile_row` (`taccrec.py` lines 80-87):
summary fields, the literals `'tar'` and `'T'`, then the `extra` fields. -/
def mkCols (s : Summary) (e : Extra) : Cols :=
  { data_size := s.data_size
    wcount := s.wcount
    date_created := s.date_created
    time_created := s.time_created
    date_modified := s.date_modified
    time_modified := s.time_modified
    file_format := "tar"
    status := "T"
    uid := e.uid
    dsid := e.dsid
    data_format := e.data_format
    disp_order := e.disp_order
    dsids := e.dsids
    note := e.note }

/-- A row of the `dssdb.tfile` table: the key `tfile`, the generated
serial `tid`, and the non-key columns. -/
structure TRow where
  tfile : String
  tid : Nat
  cols : Cols
deriving DecidableEq, Repr

/-- A row of a per-dataset `dssdb.wfile_<dsid>` table: the file path and
its archive reference `tid` (0 = not archived). -/
structure WRow where
  wfile : String
  tid : Nat
deriving DecidableEq, Repr

/-- The database state seen by `insert_tfile_row`: the `dssdb.tfile`
table and the per-dataset `wfile` tables keyed by table name; a name
absent from the association list models a table that does not exist
(`to_regclass` returns NULL). -/
structure DBState where
  tfile : List TRow
  wtabs : List (String × List WRow)
deriving DecidableEq, Repr

/-- The serial value the catalog assigns to a freshly inserted `tfile`
row. -/
def nextTid (t : List TRow) : Nat :=
  (t.map TRow.tid).foldr max 0 + 1

/-- Effect on the `tfile` table of
`INSERT ... ON CONFLICT (tfile) DO UPDATE SET col=EXCLUDED.col ...`
(`taccrec.py` lines 89-93): on a key conflict overwrite every non-key
column of the existing row, keeping its `tid`; otherwise insert a new row
with a fresh `tid`. -/
def upsertTfile (t : List TRow) (name : String) (v : Cols) : List TRow :=
  if t.any (fun r => r.tfile == name) then
    t.map (fun r => if r.tfile == name then { r with cols := v } else r)
  else t ++ [⟨name, nextTid t, v⟩]

/-- `SELECT tid FROM dssdb.tfile WHERE tfile=%s` (`taccrec.py` line 98):
the `tid` of the first matching row. -/
def lookupTid (t : List TRow) (name : String) : Option Nat :=
  (t.find? (fun r => r.tfile == name)).map TRow.tid

/-- The non-key columns of the first `tfile` row with the given name. -/
def lookupCols (t : List TRow) (name : String) : Option Cols :=
  (t.find? (fun r => r.tfile == name)).map TRow.cols

/-- The number of `tfile` rows carrying the given name. -/
def tfileKeyCount (t : List TRow) (name : String) : Nat :=
  t.countP (fun r => r.tfile == name)

/-- `SELECT to_regclass(%s)` (`taccrec.py` line 111) plus reading the
table: the rows of the named `wfile` table, `none` when it does not
exist. -/
def lookupWtab (ws : List (String × List WRow)) (tname : String) :
    Option (List WRow) :=
  (ws.find? (fun p => p.fst == tname)).map Prod.snd

/-- `UPDATE <wfile_table> SET tid=%s WHERE wfile=%s` (`taccrec.py`
line 116): set `tid` on every matching row of the named table; updating
zero rows is not an error. -/
def updateWtab (ws : List (String × List WRow)) (tname wfile : String)
    (tid : Nat) : List (String × List WRow) :=
  ws.map (fun p =>
    if p.fst == tname then
      (p.fst, p.snd.map (fun r => if r.wfile == wfile then { r with tid := tid } else r))
    else p)

/-- `name.split('/', 1)` as used at `taccrec.py` lines 105-108: the first
path segment and the rest; a name with no `/` gives `(name, "")`. -/
def split_member_name (name : String) : String × String :=
  match splitFirstSlash name.data with
  | some (a, b) => (String.mk a, String.mk b)
  | none => (name, "")

/-- The association table name derived from a member name
(`taccrec.py` line 109). -/
def wtabOf (name : String) : String :=
  "dssdb.wfile_" ++ (split_member_name name).1

/-- The per-member loop of `insert_tfile_row` (`taccrec.py` lines
103-116): for each member name, look up its dataset's `wfile` table; if
the table does not exist, `continue` (no logging); otherwise run the
`UPDATE`.  `failUpd t = true` models the `UPDATE` on table `t` raising a
database exception, which propagates out of the loop. -/
def memberPass (failUpd : String → Bool) (tid : Nat) :
    List String → List (String × List WRow) →
    Except String (List (String × List WRow))
  | [], ws => Except.ok ws
  | name :: rest, ws =>
    match lookupWtab ws (wtabOf name) with
    | none => memberPass failUpd tid rest ws
    | some _ =>
      if failUpd (wtabOf name) then Except.error "wfile update failed"
      else memberPass failUpd tid rest
        (updateWtab ws (wtabOf name) (split_member_name name).2 tid)

/-- What a call of `insert_tfile_row` leaves behind: the exception it
re-raises (if any), the committed database state, and the messages it
printed. -/
structure InsertOutcome where
  raised : Option String
  db : DBState
  printed : List String
deriving DecidableEq, Repr

/-- The member phase of `insert_tfile_row` (`taccrec.py` lines 101-117),
run after the archive row was upserted into `t1` and committed: when the
member loop completes, its table updates are committed (line 117); when
it raises, the pending updates are rolled back — `ws0`, the state of the
first commit, survives — the message is printed and the exception
re-raised (lines 118-121). -/
def insertMemberPhase (t1 : List TRow) (ws0 : List (String × List WRow))
    (tid : Nat) (member_details : Option (List String))
    (failUpd : String → Bool) : InsertOutcome :=
  match member_details with
  | none => ⟨none, ⟨t1, ws0⟩, []⟩
  | some ms =>
    match memberPass failUpd tid ms ws0 with
    | Except.ok ws2 => ⟨none, ⟨t1, ws2⟩, []⟩
    | Except.error e => ⟨some e, ⟨t1, ws0⟩, ["Database error: " ++ e]⟩

/-- `insert_tfile_row` of `taccrec.py` (lines 71-124).  The first
transaction (INSERT plus the commit on line 96) makes the archive row
durable; the member phase follows.  Without `update_on_conflict` an
existing key makes the INSERT raise a unique violation: the message is
printed, the transaction is rolled back and the exception re-raised. -/
def insert_tfile_row (db : DBState) (summary : Summary) (extra : Extra)
    (update_on_conflict : Bool) (member_details : Option (List String))
    (failUpd : String → Bool) : InsertOutcome :=
  if db.tfile.any (fun r => r.tfile == summary.tfile) && !update_on_conflict then
    ⟨some "unique violation", db, ["Database error: unique violation"]⟩
  else
    match lookupTid (upsertTfile db.tfile summary.tfile (mkCols summary extra))
        summary.tfile with
    | none =>
      ⟨none, ⟨upsertTfile db.tfile summary.tfile (mkCols summary extra), db.wtabs⟩, []⟩
    | some tid =>
      insertMemberPhase (upsertTfile db.tfile summary.tfile (mkCols summary extra))
        db.wtabs tid member_details failUpd

/-- The kind of a tar member as `tarfile` classifies it
(`taccrec` is not involved; this is `tacctar.py` line 258). -/
inductive MType where
  | file
  | dir
  | symlink
  | other
deriving DecidableEq, Repr

/-- The metadata of one member as `tar.getmembers()` reports it
(`tacctar.py` lines 256-264). -/
structure MInfo where
  name : String
  size : Nat
  mode : Nat
  mtime : Int
  uid : Nat
  gid : Nat
  uname : String
  gname : String
  mtype : MType
deriving DecidableEq, Repr

/-- The environment `tar_batch_file` runs in: whether the `.mbr` file
already exists, the lines of the batch file, which `tar.add` calls
succeed, the members the reopened tar reports, and the `pwd`/`grp`/
`time.strftime` lookups. -/
structure TarEnv where
  mbr_exists : Bool
  batch_lines : List String
  add_ok : String → Bool
  tar_members : List MInfo
  pw_name : Nat → String
  gr_name : Nat → String
  fmt_mtime : Int → String

/-- One observable filesystem or logging action of `tar_batch_file`. -/
inductive FsOp where
  | log_info (msg : String)
  | log_warning (msg : String)
  | tar_open (mode path : String)
  | tar_add (absPath arcname : String)
  | open_write (path : String)
  | write_line (path line : String)
deriving DecidableEq, Repr

/-- Python `oct(m)`: `"0o"` followed by the octal digits. -/
def pyOct (m : Nat) : String :=
  "0o" ++ String.mk (Nat.toDigits 8 m)

/-- The last `n` characters of a string (Python `s[-n:]` for non-empty
`s`). -/
def strTakeRight (s : String) (n : Nat) : String :=
  String.mk (s.toList.drop (s.toList.length - n))

/-- Python `f"{n:9d}"`: decimal digits right-aligned in 9 columns. -/
def pad9 (n : Nat) : String :=
  String.mk (List.replicate (9 - (toString n).length) ' ') ++ toString n

/-- One line of the member-list dump (`tacctar.py` lines 257-264):
type character, the last four characters of `oct(mode)`, `uname/gname`
with `pwd`/`grp` fallback for empty names, the size padded to 9 columns,
the formatted mtime, and the member name. -/
def mbr_line (env : TarEnv) (m : MInfo) : String :=
  (match m.mtype with
    | MType.file => "-"
    | MType.dir => "d"
    | MType.symlink => "l"
    | MType.other => "?")
  ++ strTakeRight (pyOct m.mode) 4
  ++ " "
  ++ (if m.uname ≠ "" then m.uname else env.pw_name m.uid)
  ++ "/"
  ++ (if m.gname ≠ "" then m.gname else env.gr_name m.gid)
  ++ " " ++ pad9 m.size
  ++ " " ++ env.fmt_mtime m.mtime
  ++ " " ++ m.name

/-- `os.path.join(tar_root, rel) if tar_root else rel`
(`tacctar.py` line 248), for a relative `rel`. -/
def pyJoinRoot (tar_root : Option String) (rel : String) : String :=
  match tar_root with
  | some r => r ++ "/" ++ rel
  | none => rel

/-- `tar_batch_file` of `tacctar.py` (lines 230-264) as the trace of
actions it performs.  If the `.mbr` file exists the whole build is
skipped (lines 240-242).  Otherwise the batch file is read (stripped
non-empty lines), the tar is opened for writing and every file added —
a failing `add` is logged and skipped (the exception text is abstracted
away) — then the tar is reopened and the member-list dump is written. -/
def tar_batch_file (env : TarEnv) (batch_file : String)
    (tar_root : Option String) : List FsOp :=
  if env.mbr_exists then
    [FsOp.log_info ("Member list file " ++ (pyReplace batch_file ".batch" ".tar" ++ ".mbr")
      ++ " exists, skipping tar for " ++ pyReplace batch_file ".batch" ".tar" ++ ".")]
  else
    [FsOp.log_info ("Creating tar: " ++ pyReplace batch_file ".batch" ".tar"
        ++ " from batch file: " ++ batch_file ++ " with "
        ++ toString ((env.batch_lines.map pyStrip).filter (fun l => l ≠ "")).length
        ++ " files."),
      FsOp.tar_open "w" (pyReplace batch_file ".batch" ".tar")]
    ++ ((env.batch_lines.map pyStrip).filter (fun l => l ≠ "")).map (fun rel =>
        if env.add_ok (pyJoinRoot tar_root rel) then
          FsOp.tar_add (pyJoinRoot tar_root rel) rel
        else
          FsOp.log_warning ("Failed to add " ++ pyJoinRoot tar_root rel
            ++ " as " ++ rel ++ " to tar"))
    ++ [FsOp.tar_open "r" (pyReplace batch_file ".batch" ".tar"),
        FsOp.open_write (pyReplace batch_file ".batch" ".tar" ++ ".mbr")]
    ++ env.tar_members.map (fun m =>
        FsOp.write_line (pyReplace batch_file ".batch" ".tar" ++ ".mbr") (mbr_line env m))

/-- A concrete summary, as produced for a two-member archive, used to
instantiate theorems on concrete inputs. -/
def sampleSummary : Summary :=
  ⟨"t1", 15, 2, "D", "T1", "D2", "T2", "dsa/x\ndsa/y", "dsa", some "dsa"⟩

/-- The `extra` dictionary `main` would build for `sampleSummary`. -/
def sampleExtra : Extra := mainExtra sampleSummary 42

/-- A concrete environment in which the member-list dump already
exists. -/
def sampleTarEnv : TarEnv :=
  ⟨true, ["a.txt"], fun _ => true, [], fun _ => "u", fun _ => "g", fun _ => "tm"⟩

theorem extendLast_join {α : Type} (bs : List (List α)) (cur : List α) :
    (extendLast bs cur).join = bs.join ++ cur := by
  induction bs with
  | nil => simp [extendLast]
  | cons b bs ih =>
    cases bs with
    | nil => simp [extendLast]
    | cons b2 bs2 => simp [extendLast, ih, List.append_assoc]

theorem mem_extendLast {α : Type} : ∀ (bs : List (List α)) (cur b : List α),
    bs ≠ [] → b ∈ extendLast bs cur → b ∈ bs ∨ ∃ a, a ∈ bs ∧ b = a ++ cur
  | [], _, _, h, _ => absurd rfl h
  | [x], cur, b, _, hb => by
    simp only [extendLast, List.mem_singleton] at hb
    exact Or.inr ⟨x, by simp, hb⟩
  | x :: y :: t, cur, b, _, hb => by
    simp only [extendLast, List.mem_cons] at hb
    rcases hb with rfl | hb
    · exact Or.inl (List.mem_cons_self _ _)
    · rcases mem_extendLast (y :: t) cur b (by simp) hb with h2 | ⟨a, ha, rfl⟩
      · exact Or.inl (List.mem_cons_of_mem _ h2)
      · exact Or.inr ⟨a, List.mem_cons_of_mem _ ha, rfl⟩

theorem group_loop_join (min_size max_size : Nat) (fs : List FileD) :
    ∀ (batches : List (List FileD)) (cur : List FileD) (curSize : Nat),
    (group_files_by_size_loop min_size max_size fs batches cur curSize).join
      = batches.join ++ cur
          ++ fs.filter (fun f => decide (get_file_size f ≤ 2 * max_size)) := by
  induction fs with
  | nil =>
    intro batches cur curSize
    simp only [group_files_by_size_loop, List.filter_nil, List.append_nil]
    by_cases h1 : cur = []
    · simp [h1]
    · rw [if_neg h1]
      by_cases h2 : curSize < min_size ∧ batches ≠ []
      · rw [if_pos h2, extendLast_join]
      · rw [if_neg h2]; simp
  | cons f fs ih =>
    intro batches cur curSize
    rw [group_files_by_size_loop]
    by_cases h1 : 2 * max_size < get_file_size f
    · rw [if_pos h1, ih]
      have hdrop : (decide (get_file_size f ≤ 2 * max_size)) = false := by
        simp only [decide_eq_false_iff_not]; omega
      simp [List.filter_cons, hdrop]
    · rw [if_neg h1]
      have hkeep : (decide (get_file_size f ≤ 2 * max_size)) = true := by
        simp only [decide_eq_true_eq]; omega
      by_cases h2 : max_size < curSize + get_file_size f
      · rw [if_pos h2]
        by_cases h3 : curSize < min_size ∧ batches ≠ []
        · rw [if_pos h3, ih, extendLast_join]
          simp [List.filter_cons, hkeep, List.append_assoc]
        · rw [if_neg h3, ih]
          simp [List.filter_cons, hkeep, List.append_assoc]
      · rw [if_neg h2, ih]
        simp [List.filter_cons, hkeep, List.append_assoc]

theorem get_batch_size_append (a b : List FileD) :
    get_batch_size (a ++ b) = get_batch_size a + get_batch_size b := by
  simp [get_batch_size]

theorem extendLast_drop_one_bound (min_size : Nat) :
    ∀ (batches : List (List FileD)) (cur : List FileD),
    (∀ b ∈ batches.drop 1, min_size ≤ get_batch_size b) →
    ∀ b ∈ (extendLast batches cur).drop 1, min_size ≤ get_batch_size b
  | [], cur, _ => by simp [extendLast]
  | [x], cur, _ => by simp [extendLast]
  | x :: y :: t, cur, h => by
    intro b hb
    simp only [extendLast, List.drop_succ_cons, List.drop_zero] at hb
    rcases mem_extendLast (y :: t) cur b (by simp) hb with h2 | ⟨a, ha, rfl⟩
    · exact h b (by simpa using h2)
    · have hba := h a (by simpa using ha)
      rw [get_batch_size_append]; omega

theorem append_drop_one_bound (min_size : Nat) :
    ∀ (batches : List (List FileD)) (cur : List FileD),
    (∀ b ∈ batches.drop 1, min_size ≤ get_batch_size b) →
    (min_size ≤ get_batch_size cur ∨ batches = []) →
    ∀ b ∈ (batches ++ [cur]).drop 1, min_size ≤ get_batch_size b
  | [], cur, _, _ => by simp
  | x :: t, cur, h, hcur => by
    intro b hb
    rcases hcur with hc | hc
    · simp only [List.cons_append, List.drop_succ_cons, List.drop_zero] at hb
      rcases List.mem_append.mp hb with h2 | h2
      · exact h b (by simpa using h2)
      · simp only [List.mem_singleton] at h2; subst h2; exact hc
    · exact absurd hc (by simp)

theorem group_loop_min_bound (min_size max_size : Nat) (fs : List FileD) :
    ∀ (batches : List (List FileD)) (cur : List FileD) (curSize : Nat),
    curSize = get_batch_size cur →
    (∀ b ∈ batches.drop 1, min_size ≤ get_batch_size b) →
    ∀ b ∈ (group_files_by_size_loop min_size max_size fs batches cur curSize).drop 1,
      min_size ≤ get_batch_size b := by
  induction fs with
  | nil =>
    intro batches cur curSize hsz hinv
    simp only [group_files_by_size_loop]
    by_cases h1 : cur = []
    · simpa [h1] using hinv
    · rw [if_neg h1]
      by_cases h2 : curSize < min_size ∧ batches ≠ []
      · rw [if_pos h2]
        exact extendLast_drop_one_bound min_size batches cur hinv
      · rw [if_neg h2]
        refine append_drop_one_bound min_size batches cur hinv ?_
        rcases not_and_or.mp h2 with h | h
        · exact Or.inl (by omega)
        · exact Or.inr (not_not.mp h)
  | cons f fs ih =>
    intro batches cur curSize hsz hinv
    rw [group_files_by_size_loop]
    by_cases h1 : 2 * max_size < get_file_size f
    · rw [if_pos h1]
      exact ih batches cur curSize hsz hinv
    · rw [if_neg h1]
      by_cases h2 : max_size < curSize + get_file_size f
      · rw [if_pos h2]
        by_cases h3 : curSize < min_size ∧ batches ≠ []
        · rw [if_pos h3]
          refine ih (extendLast batches cur) [f] (get_file_size f)
            (by simp [get_batch_size]) ?_
          exact extendLast_drop_one_bound min_size batches cur hinv
        · rw [if_neg h3]
          refine ih (batches ++ [cur]) [f] (get_file_size f)
            (by simp [get_batch_size]) ?_
          refine append_drop_one_bound min_size batches cur hinv ?_
          rcases not_and_or.mp h3 with h | h
          · exact Or.inl (by omega)
          · exact Or.inr (not_not.mp h)
      · rw [if_neg h2]
        refine ih batches (cur ++ [f]) (curSize + get_file_size f) ?_ hinv
        rw [get_batch_size_append, hsz]
        simp [get_batch_size]

/-- C10: `group_files_by_size` is an order-preserving partition of the
kept files: concatenating the output batches in order yields exactly the
input files whose measured size is at most `2 * max_size`, in their
original order, so every kept file appears in exactly one batch and none
is duplicated (proved for all bounds, in particular for
`0 < min_size ≤ max_size`). -/
theorem group_files_by_size_partition (files : List FileD)
    (min_size max_size : Nat) :
    (group_files_by_size files min_size max_size).join
      = files.filter (fun f => decide (get_file_size f ≤ 2 * max_size)) := by
  unfold group_files_by_size
  simpa using group_loop_join min_size max_size files [] [] 0

/-- C1 counterexample: with `min_size = 1`, `max_size = 10`, a file of
size 11 > `max_size` appears in an emitted batch — the code only excludes
sizes above `2 * max_size` (`tacctar.py` line 49).  The output is
`[[], [f]]`. -/
theorem oversized_file_emitted_counterexample :
    10 < get_file_size ⟨"g", some 11⟩ ∧
    group_files_by_size [⟨"g", some 11⟩] 1 10 = [[], [⟨"g", some 11⟩]] := by
  decide

/-- C1 amended: a file whose measured size exceeds `2 * max_size` never
appears in any emitted batch; files with sizes in
`(max_size, 2 * max_size]` are admitted (see the counterexample). -/
theorem group_files_by_size_oversized_bound (files : List FileD)
    (min_size max_size : Nat) (b : List FileD) (f : FileD)
    (hb : b ∈ group_files_by_size files min_size max_size) (hf : f ∈ b) :
    get_file_size f ≤ 2 * max_size := by
  have hj : f ∈ (group_files_by_size files min_size max_size).join :=
    List.mem_join.mpr ⟨b, hb, hf⟩
  unfold group_files_by_size at hj
  rw [group_loop_join] at hj
  simp only [List.join_nil, List.nil_append] at hj
  exact of_decide_eq_true (List.mem_filter.mp hj).2

theorem group_files_by_size_oversized_bound_witness :
    get_file_size ⟨"a", some 3⟩ ≤ 2 * 10 :=
  group_files_by_size_oversized_bound [⟨"a", some 3⟩] 1 10 [⟨"a", some 3⟩]
    ⟨"a", some 3⟩ (by decide) (by decide)

/-- C2 counterexample: `min_size = max_size = 10`, files of sizes
10, 5, 6.  When the third file would overflow the under-filled batch
`[b]`, `group_files_by_size` folds `[b]` into the previous batch
(`tacctar.py` line 55) instead of closing it as its own batch: the code
yields the single batch `[a, b, c]`, whereas the specification's forced
close (section 4.2, embedded as `group_files_by_size_spec`) yields
`[[a], [b, c]]`. -/
theorem forced_close_counterexample :
    group_files_by_size [⟨"a", some 10⟩, ⟨"b", some 5⟩, ⟨"c", some 6⟩] 10 10
      = [[⟨"a", some 10⟩, ⟨"b", some 5⟩, ⟨"c", some 6⟩]] ∧
    group_files_by_size_spec [⟨"a", some 10⟩, ⟨"b", some 5⟩, ⟨"c", some 6⟩] 10 10
      = [[⟨"a", some 10⟩], [⟨"b", some 5⟩, ⟨"c", some 6⟩]] := by
  decide

/-- C2 amended: when adding the next file would make the current batch
exceed `max_size` while the current batch is below `min_size` and at
least one batch was already closed, the current batch's members are
appended to the most recently closed batch (a backward merge that loses
no member) and a new batch starts containing only that file; the
under-filled batch is not kept as its own completed batch. -/
theorem group_loop_backward_merge (min_size max_size : Nat) (fs : List FileD)
    (batches : List (List FileD)) (cur : List FileD) (curSize : Nat) (f : FileD)
    (hfit : get_file_size f ≤ 2 * max_size)
    (hover : max_size < curSize + get_file_size f)
    (hunder : curSize < min_size) (hprev : batches ≠ []) :
    group_files_by_size_loop min_size max_size (f :: fs) batches cur curSize
      = group_files_by_size_loop min_size max_size fs
          (extendLast batches cur) [f] (get_file_size f)
    ∧ (extendLast batches cur).join = batches.join ++ cur := by
  refine ⟨?_, extendLast_join batches cur⟩
  rw [group_files_by_size_loop, if_neg (by omega), if_pos hover,
    if_pos ⟨hunder, hprev⟩]

theorem group_loop_backward_merge_witness :
    (group_files_by_size_loop 10 10 [⟨"c", some 6⟩] [[⟨"a", some 10⟩]]
        [⟨"b", some 5⟩] 5
      = group_files_by_size_loop 10 10 []
          (extendLast [[⟨"a", some 10⟩]] [⟨"b", some 5⟩]) [⟨"c", some 6⟩]
          (get_file_size ⟨"c", some 6⟩))
    ∧ (extendLast ([[⟨"a", some 10⟩]] : List (List FileD)) [⟨"b", some 5⟩]).join
        = ([[⟨"a", some 10⟩]] : List (List FileD)).join ++ [⟨"b", some 5⟩] := by
  have h := group_loop_backward_merge 10 10 [] [[⟨"a", some 10⟩]]
    [⟨"b", some 5⟩] 5 ⟨"c", some 6⟩ (by decide) (by decide) (by decide)
    (by decide)
  exact ⟨h.1, h.2⟩

/-- C3 counterexample: `min_size = max_size = 10`, files of sizes
10, 10, 5.  The run outputs two batches, and the second one has aggregate
size 15 > `max_size` — it is neither the sole batch of the run nor a
forced close (a forced close can only produce a batch below `min_size`):
the trailing backward merge pushed it over the upper bound. -/
theorem batch_bound_counterexample :
    group_files_by_size [⟨"a", some 10⟩, ⟨"b", some 10⟩, ⟨"c", some 5⟩] 10 10
      = [[⟨"a", some 10⟩], [⟨"b", some 10⟩, ⟨"c", some 5⟩]] ∧
    get_batch_size [⟨"b", some 10⟩, ⟨"c", some 5⟩] = 15 ∧
    (group_files_by_size [⟨"a", some 10⟩, ⟨"b", some 10⟩, ⟨"c", some 5⟩]
        10 10).length = 2 := by
  decide

/-- C3 amended: every batch output by `group_files_by_size` other than
the first one has aggregate size at least `min_size` (the first batch
may be below `min_size`: the sole-batch and forced-close-with-no-prior
cases).  The `max_size` upper bound does not hold for emitted batches:
the mid-stream and trailing backward merges can push a batch above
`max_size`, as the counterexample shows. -/
theorem group_files_by_size_min_bound (files : List FileD)
    (min_size max_size : Nat) (b : List FileD)
    (hb : b ∈ (group_files_by_size files min_size max_size).drop 1) :
    min_size ≤ get_batch_size b :=
  group_loop_min_bound min_size max_size files [] [] 0 rfl (by simp) b hb

theorem group_files_by_size_min_bound_witness :
    5 ≤ get_batch_size [⟨"b", some 10⟩] :=
  group_files_by_size_min_bound
    [⟨"a", some 10⟩, ⟨"b", some 10⟩, ⟨"c", some 10⟩] 5 10
    [⟨"b", some 10⟩] (by decide)

/-- C8: three files of sizes 549755813888, 659706976665 and 549755813888
bytes (0.5 TiB, 0.6 TiB rounded to whole bytes, 0.5 TiB) with
`min_size = ONE_TB`, `max_size = THREE_TB` produce exactly one batch
holding all three files in input order, of aggregate size 1759218604441
bytes (1.6 TiB up to the sub-byte rounding of 0.6 TiB). -/
theorem three_file_scenario :
    group_files_by_size
        [⟨"f1", some 549755813888⟩, ⟨"f2", some 659706976665⟩,
          ⟨"f3", some 549755813888⟩] ONE_TB THREE_TB
      = [[⟨"f1", some 549755813888⟩, ⟨"f2", some 659706976665⟩,
          ⟨"f3", some 549755813888⟩]]
    ∧ get_batch_size
        [⟨"f1", some 549755813888⟩, ⟨"f2", some 659706976665⟩,
          ⟨"f3", some 549755813888⟩] = 1759218604441 := by
  decide

/-- C9 counterexample: a file whose stat fails is reported as size 0 by
`get_file_size` and is included in the emitted batches, not excluded:
with `min_size = 1`, `max_size = 10` the failed file lands in the same
batch as the healthy one. -/
theorem stat_failure_counterexample :
    get_file_size ⟨"bad", none⟩ = 0 ∧
    group_files_by_size [⟨"bad", none⟩, ⟨"ok", some 5⟩] 1 10
      = [[⟨"bad", none⟩, ⟨"ok", some 5⟩]] := by
  decide

/-- C9 amended: when a file's size cannot be determined, the condition is
logged, the file is treated as having size 0, and it is included in the
emitted batches (it always appears in the output); processing continues
with the remaining files. -/
theorem stat_failure_file_included (files : List FileD)
    (min_size max_size : Nat) (f : FileD) (hf : f ∈ files)
    (hfail : f.statSize = none) :
    f ∈ (group_files_by_size files min_size max_size).join := by
  unfold group_files_by_size
  rw [group_loop_join]
  simp only [List.join_nil, List.nil_append]
  exact List.mem_filter.mpr ⟨hf, by simp [get_file_size, hfail]⟩

theorem stat_failure_file_included_witness :
    (⟨"bad", none⟩ : FileD) ∈ (group_files_by_size [⟨"bad", none⟩] 1 10).join :=
  stat_failure_file_included [⟨"bad", none⟩] 1 10 ⟨"bad", none⟩ (by decide) rfl

theorem tfileKeyCount_update (t : List TRow) (name : String) (v : Cols) :
    tfileKeyCount
        (t.map (fun r => if r.tfile == name then { r with cols := v } else r)) name
      = tfileKeyCount t name := by
  induction t with
  | nil => rfl
  | cons r t ih =>
    simp only [tfileKeyCount, List.map_cons, List.countP_cons] at ih ⊢
    rw [ih]
    by_cases h : r.tfile = name
    · simp [h]
    · simp [h]

theorem any_keys_iff (t : List TRow) (name : String) :
    t.any (fun r => r.tfile == name) = true ↔ 0 < tfileKeyCount t name := by
  simp [tfileKeyCount, List.countP_pos, List.any_eq_true]

theorem tfileKeyCount_upsert (t : List TRow) (name : String) (v : Cols)
    (h : tfileKeyCount t name ≤ 1) :
    tfileKeyCount (upsertTfile t name v) name = 1 := by
  unfold upsertTfile
  by_cases hany : t.any (fun r => r.tfile == name) = true
  · rw [if_pos hany, tfileKeyCount_update]
    have := (any_keys_iff t name).mp hany
    omega
  · rw [if_neg hany]
    have h0 : tfileKeyCount t name = 0 := by
      by_contra hne
      exact hany ((any_keys_iff t name).mpr (by omega))
    rw [tfileKeyCount, List.countP_append]
    rw [tfileKeyCount] at h0
    simp [h0, List.countP_cons]

theorem upsertTfile_cols (t : List TRow) (name : String) (v : Cols)
    (row : TRow) (hrow : row ∈ upsertTfile t name v) (hname : row.tfile = name) :
    row.cols = v := by
  unfold upsertTfile at hrow
  by_cases hany : t.any (fun r => r.tfile == name) = true
  · rw [if_pos hany] at hrow
    rcases List.mem_map.mp hrow with ⟨r, hr, heq⟩
    by_cases h : r.tfile = name
    · rw [if_pos (by simpa using h)] at heq
      rw [← heq]
    · rw [if_neg (by simpa using h)] at heq
      exact absurd (heq ▸ hname) h
  · rw [if_neg hany] at hrow
    simp only [List.any_eq_true, not_exists, not_and] at hany
    rcases List.mem_append.mp hrow with h2 | h2
    · exact absurd (by simpa using hname) (fun hx => by
        have := hany row h2
        simp [hname] at this)
    · simp only [List.mem_singleton] at h2
      rw [h2]

theorem lookupTid_upsert (t : List TRow) (name : String) (v : Cols) :
    ∃ tid, lookupTid (upsertTfile t name v) name = some tid := by
  have hsome : ((upsertTfile t name v).find? (fun r => r.tfile == name)).isSome := by
    rw [List.find?_isSome]
    unfold upsertTfile
    by_cases hany : t.any (fun r => r.tfile == name) = true
    · rw [if_pos hany]
      rcases List.any_eq_true.mp hany with ⟨r, hr, hpr⟩
      refine ⟨if r.tfile == name then { r with cols := v } else r,
        List.mem_map_of_mem _ hr, ?_⟩
      rw [if_pos hpr]
      simpa using hpr
    · rw [if_neg hany]
      exact ⟨⟨name, nextTid t, v⟩, List.mem_append_right _ (by simp), by simp⟩
  rcases Option.isSome_iff_exists.mp hsome with ⟨r, hr⟩
  exact ⟨r.tid, by rw [lookupTid, hr]; rfl⟩

theorem lookupCols_of_bound (t : List TRow) (name : String) (v : Cols)
    (hall : ∀ row ∈ t, row.tfile = name → row.cols = v)
    (hpos : 0 < tfileKeyCount t name) :
    lookupCols t name = some v := by
  have hsome : (t.find? (fun r => r.tfile == name)).isSome := by
    rw [List.find?_isSome]
    simpa [tfileKeyCount, List.countP_pos] using hpos
  rcases Option.isSome_iff_exists.mp hsome with ⟨r, hr⟩
  have hmem := List.mem_of_find?_eq_some hr
  have hpr := List.find?_some hr
  rw [lookupCols, hr]
  exact congrArg some (hall r hmem (by simpa using hpr))

theorem insert_tfile_row_no_members (db : DBState) (s : Summary) (e : Extra)
    (failUpd : String → Bool) :
    insert_tfile_row db s e true none failUpd
      = ⟨none, ⟨upsertTfile db.tfile s.tfile (mkCols s e), db.wtabs⟩, []⟩ := by
  unfold insert_tfile_row
  simp only [Bool.not_true, Bool.and_false, Bool.false_eq_true, if_false]
  cases h : lookupTid (upsertTfile db.tfile s.tfile (mkCols s e)) s.tfile <;> rfl

theorem lookupWtab_update_none (ws : List (String × List WRow))
    (a w : String) (tid : Nat) (t : String)
    (h : lookupWtab ws t = none) :
    lookupWtab (updateWtab ws a w tid) t = none := by
  rw [lookupWtab, Option.map_eq_none', List.find?_eq_none] at h
  rw [lookupWtab, Option.map_eq_none', List.find?_eq_none]
  intro x hx
  rcases List.mem_map.mp hx with ⟨q, hq, rfl⟩
  have hqt := h q hq
  by_cases hqa : (q.fst == a) = true
  · simpa [updateWtab, hqa] using hqt
  · simpa [updateWtab, hqa] using hqt

theorem memberPass_skip_absent (failUpd : String → Bool) (tid : Nat)
    (ms1 ms2 : List String) (name : String) :
    ∀ ws, lookupWtab ws (wtabOf name) = none →
    memberPass failUpd tid (ms1 ++ name :: ms2) ws
      = memberPass failUpd tid (ms1 ++ ms2) ws := by
  induction ms1 with
  | nil =>
    intro ws h
    simp only [List.nil_append]
    rw [memberPass, h]
  | cons m ms1 ih =>
    intro ws h
    simp only [List.cons_append]
    rw [memberPass, memberPass]
    cases hlk : lookupWtab ws (wtabOf m) with
    | none => exact ih ws h
    | some rows =>
      by_cases hf : failUpd (wtabOf m) = true
      · simp [hf]
      · simp only [hf, Bool.false_eq_true, if_false]
        exact ih _ (lookupWtab_update_none ws (wtabOf m) (split_member_name m).2 tid
          (wtabOf name) h)

/-- C4: invoking `insert_tfile_row` with `update_on_conflict` twice with
identical archive data for the same archive name leaves exactly one row
for that name in `dssdb.tfile`, and its non-key columns hold exactly the
values supplied by the second call (last-write-wins upsert keyed on
`tfile`).  The hypothesis is the catalog's unique-key constraint on the
starting state. -/
theorem insert_tfile_row_idempotent (db : DBState) (s : Summary) (e : Extra)
    (hkey : tfileKeyCount db.tfile s.tfile ≤ 1) :
    tfileKeyCount ((insert_tfile_row
        ((insert_tfile_row db s e true none (fun _ => false)).db)
        s e true none (fun _ => false)).db).tfile s.tfile = 1
    ∧ lookupCols ((insert_tfile_row
        ((insert_tfile_row db s e true none (fun _ => false)).db)
        s e true none (fun _ => false)).db).tfile s.tfile
      = some (mkCols s e) := by
  rw [insert_tfile_row_no_members, insert_tfile_row_no_members]
  show tfileKeyCount
      (upsertTfile (upsertTfile db.tfile s.tfile (mkCols s e)) s.tfile (mkCols s e))
      s.tfile = 1
    ∧ lookupCols
      (upsertTfile (upsertTfile db.tfile s.tfile (mkCols s e)) s.tfile (mkCols s e))
      s.tfile = some (mkCols s e)
  have h1 : tfileKeyCount (upsertTfile db.tfile s.tfile (mkCols s e)) s.tfile = 1 :=
    tfileKeyCount_upsert db.tfile s.tfile (mkCols s e) hkey
  have h2 : tfileKeyCount
      (upsertTfile (upsertTfile db.tfile s.tfile (mkCols s e)) s.tfile (mkCols s e))
      s.tfile = 1 :=
    tfileKeyCount_upsert _ s.tfile (mkCols s e) (le_of_eq h1)
  refine ⟨h2, lookupCols_of_bound _ s.tfile (mkCols s e) ?_ (by omega)⟩
  intro row hrow hname
  exact upsertTfile_cols _ s.tfile (mkCols s e) row hrow hname

theorem insert_tfile_row_idempotent_witness :
    tfileKeyCount ((insert_tfile_row
        ((insert_tfile_row ⟨[], []⟩ sampleSummary sampleExtra true none
          (fun _ => false)).db)
        sampleSummary sampleExtra true none (fun _ => false)).db).tfile
      sampleSummary.tfile = 1
    ∧ lookupCols ((insert_tfile_row
        ((insert_tfile_row ⟨[], []⟩ sampleSummary sampleExtra true none
          (fun _ => false)).db)
        sampleSummary sampleExtra true none (fun _ => false)).db).tfile
      sampleSummary.tfile = some (mkCols sampleSummary sampleExtra) :=
  insert_tfile_row_idempotent ⟨[], []⟩ sampleSummary sampleExtra (by decide)

/-- C5 amended: in the per-member pass of `insert_tfile_row`, a member
whose dataset association table does not exist is skipped silently — no
log entry is made — and the remaining members and the archive are
processed exactly as if the member were absent (first conjunct).  A
failure in the pass is not per-member: the exception aborts the
remaining member updates, rolls back the pending ones and re-raises; it
never rolls back the archive row, which was committed in its own earlier
transaction and is still the upserted row in the final state (second
conjunct). -/
theorem insert_member_pass_behavior :
    (∀ (db : DBState) (s : Summary) (e : Extra) (failUpd : String → Bool)
        (ms1 ms2 : List String) (name : String),
        lookupWtab db.wtabs (wtabOf name) = none →
        insert_tfile_row db s e true (some (ms1 ++ name :: ms2)) failUpd
          = insert_tfile_row db s e true (some (ms1 ++ ms2)) failUpd)
    ∧ (∀ (db : DBState) (s : Summary) (e : Extra) (failUpd : String → Bool)
        (ms : List String) (msg : String),
        (insert_tfile_row db s e true (some ms) failUpd).raised = some msg →
        (insert_tfile_row db s e true (some ms) failUpd).db
          = ⟨upsertTfile db.tfile s.tfile (mkCols s e), db.wtabs⟩) := by
  constructor
  · intro db s e failUpd ms1 ms2 name hnone
    unfold insert_tfile_row
    simp only [Bool.not_true, Bool.and_false, Bool.false_eq_true, if_false]
    cases h : lookupTid (upsertTfile db.tfile s.tfile (mkCols s e)) s.tfile with
    | none => rfl
    | some tid =>
      show insertMemberPhase (upsertTfile db.tfile s.tfile (mkCols s e))
          db.wtabs tid (some (ms1 ++ name :: ms2)) failUpd
        = insertMemberPhase (upsertTfile db.tfile s.tfile (mkCols s e))
          db.wtabs tid (some (ms1 ++ ms2)) failUpd
      simp only [insertMemberPhase]
      rw [memberPass_skip_absent failUpd tid ms1 ms2 name db.wtabs hnone]
  · intro db s e failUpd ms msg hraised
    unfold insert_tfile_row at hraised ⊢
    simp only [Bool.not_true, Bool.and_false, Bool.false_eq_true, if_false]
      at hraised ⊢
    cases h : lookupTid (upsertTfile db.tfile s.tfile (mkCols s e)) s.tfile with
    | none => rw [h] at hraised
    | some tid =>
      rw [h] at hraised
      replace hraised : (insertMemberPhase
          (upsertTfile db.tfile s.tfile (mkCols s e)) db.wtabs tid (some ms)
          failUpd).raised = some msg := hraised
      show (insertMemberPhase (upsertTfile db.tfile s.tfile (mkCols s e))
          db.wtabs tid (some ms) failUpd).db
        = ⟨upsertTfile db.tfile s.tfile (mkCols s e), db.wtabs⟩
      simp only [insertMemberPhase] at hraised ⊢
      cases hm : memberPass failUpd tid ms db.wtabs with
      | ok ws2 =>
        rw [hm] at hraised
        exact Option.noConfusion hraised
      | error err => rfl

theorem insert_member_pass_behavior_witness :
    (insert_tfile_row ⟨[], [("dssdb.wfile_dsa", [⟨"x.txt", 0⟩])]⟩ sampleSummary
        sampleExtra true (some ([] ++ "dsb/y.txt" :: ["dsa/x.txt"]))
        (fun _ => false)
      = insert_tfile_row ⟨[], [("dssdb.wfile_dsa", [⟨"x.txt", 0⟩])]⟩
        sampleSummary sampleExtra true (some ([] ++ ["dsa/x.txt"]))
        (fun _ => false))
    ∧ (insert_tfile_row ⟨[], [("dssdb.wfile_dsa", [⟨"x.txt", 0⟩])]⟩
        sampleSummary sampleExtra true (some ["dsa/x.txt"])
        (fun t => t == "dssdb.wfile_dsa")).db
      = ⟨upsertTfile ([] : List TRow) sampleSummary.tfile
          (mkCols sampleSummary sampleExtra),
         [("dssdb.wfile_dsa", [⟨"x.txt", 0⟩])]⟩ :=
  ⟨insert_member_pass_behavior.1 ⟨[], [("dssdb.wfile_dsa", [⟨"x.txt", 0⟩])]⟩
      sampleSummary sampleExtra (fun _ => false) [] ["dsa/x.txt"] "dsb/y.txt"
      (by decide),
   insert_member_pass_behavior.2 ⟨[], [("dssdb.wfile_dsa", [⟨"x.txt", 0⟩])]⟩
      sampleSummary sampleExtra (fun t => t == "dssdb.wfile_dsa")
      ["dsa/x.txt"] "wfile update failed" (by decide)⟩

/-- C5 counterexample: first conjunct — a member (`dsb/y.txt`) whose
association table is missing is skipped with an empty `printed` list, so
no log entry is made, while the later member `dsa/x.txt` is still
processed (its `tid` becomes 1): the "with a log entry" part of the
claim is false.  Second conjunct — when the update for `dsa/x.txt`
raises, the call re-raises (`raised` is set), the other member's update
is also lost (both `wfile` tables are unchanged), and only the committed
archive row survives: failures in this pass are fatal for the call, not
per-member. -/
theorem member_pass_counterexample :
    insert_tfile_row ⟨[], [("dssdb.wfile_dsa", [⟨"x.txt", 0⟩])]⟩ sampleSummary
        sampleExtra true (some ["dsb/y.txt", "dsa/x.txt"]) (fun _ => false)
      = ⟨none,
         ⟨[⟨"t1", 1, mkCols sampleSummary sampleExtra⟩],
          [("dssdb.wfile_dsa", [⟨"x.txt", 1⟩])]⟩,
         []⟩
    ∧ insert_tfile_row ⟨[], [("dssdb.wfile_dsa", [⟨"x.txt", 0⟩]),
          ("dssdb.wfile_dsb", [⟨"y.txt", 0⟩])]⟩ sampleSummary sampleExtra true
        (some ["dsa/x.txt", "dsb/y.txt"]) (fun t => t == "dssdb.wfile_dsa")
      = ⟨some "wfile update failed",
         ⟨[⟨"t1", 1, mkCols sampleSummary sampleExtra⟩],
          [("dssdb.wfile_dsa", [⟨"x.txt", 0⟩]),
           ("dssdb.wfile_dsb", [⟨"y.txt", 0⟩])]⟩,
         ["Database error: wfile update failed"]⟩ := by
  decide

/-- C7 counterexample: for a concrete two-member listing, the `note`
value stored in the archive row is just the newline-joined member
*names* — no line of it contains a single `;`, so no line can carry the
claimed `name;size;mtime;type;mode;uid;gid;uname;gname` fields. -/
theorem note_format_counterexample :
    (get_tar_summary_and_details
        (some ["-rw 1 7 d t dsa/x", "-rw 1 8 d t dsa/y"]) "p.mbr" "D" "T").map
        (fun r => r.1.note) = some "dsa/x\ndsa/y"
    ∧ ((pySplitChar "dsa/x\ndsa/y" '\n').all
        (fun l => l.data.all (fun c => c ≠ ';'))) = true := by
  decide

/-- C7 amended: the member-manifest text stored in the archive row's
`note` column is the newline-delimited list of the member *names* only.
(The source also builds `name=..;size=..;mtime=..;type=0;...` detail
strings with hard-coded type/mode/uid/gid/uname/gname, but never stores
or reads them.) -/
theorem note_is_member_names (ls : List String) (path nd nt : String)
    (s : Summary) (mds : List String) (uid : Nat)
    (h : get_tar_summary_and_details (some ls) path nd nt = some (s, mds)) :
    s.note = pyIntercalate "\n" mds
    ∧ (mkCols s (mainExtra s uid)).note = pyIntercalate "\n" mds := by
  replace h : get_tar_summary_core ls path nd nt = some (s, mds) := h
  unfold get_tar_summary_core at h
  cases hscan : mbr_scan ls 0 ⟨0, 0, [], none, []⟩ with
  | none =>
    rw [hscan] at h
    exact Option.noConfusion h
  | some acc =>
    rw [hscan] at h
    simp only [Option.some.injEq, Prod.mk.injEq] at h
    obtain ⟨hs, hm⟩ := h
    subst hm
    rw [← hs]
    exact ⟨rfl, rfl⟩

theorem note_is_member_names_witness :
    ((⟨"p", 15, 2, "D", "T", "D", "T", "dsa/x\ndsa/y", "dsa", some "dsa"⟩ :
        Summary).note = pyIntercalate "\n" ["dsa/x", "dsa/y"])
    ∧ (mkCols
        (⟨"p", 15, 2, "D", "T", "D", "T", "dsa/x\ndsa/y", "dsa", some "dsa"⟩ :
          Summary)
        (mainExtra
          (⟨"p", 15, 2, "D", "T", "D", "T", "dsa/x\ndsa/y", "dsa", some "dsa"⟩ :
            Summary) 42)).note
      = pyIntercalate "\n" ["dsa/x", "dsa/y"] :=
  note_is_member_names ["-rw 1 7 d t dsa/x", "-rw 1 8 d t dsa/y"] "p.mbr" "D" "T"
    ⟨"p", 15, 2, "D", "T", "D", "T", "dsa/x\ndsa/y", "dsa", some "dsa"⟩
    ["dsa/x", "dsa/y"] 42 (by decide)

/-- C6: when the member-listing dump (`.mbr` file) of a previous build
already exists, `tar_batch_file` returns after a single informational log
message: its whole trace is one `log_info` action, so the container file
is neither opened (`tar_open`) nor written (`tar_add`/`write_line`) —
the deferred build is idempotent. -/
theorem tar_batch_file_skip (env : TarEnv) (batch_file : String)
    (tar_root : Option String) (h : env.mbr_exists = true) :
    ∃ msg, tar_batch_file env batch_file tar_root = [FsOp.log_info msg] := by
  refine ⟨"Member list file " ++ (pyReplace batch_file ".batch" ".tar" ++ ".mbr")
    ++ " exists, skipping tar for " ++ pyReplace batch_file ".batch" ".tar"
    ++ ".", ?_⟩
  unfold tar_batch_file
  rw [if_pos h]

theorem tar_batch_file_skip_witness :
    ∃ msg, tar_batch_file sampleTarEnv "x.batch" none = [FsOp.log_info msg] :=
  tar_batch_file_skip sampleTarEnv "x.batch" none rfl
